import Mathlib

/-!
# Shallow embedding of the comparison engine of `excel_comparison.py`

The embedded code is `ExcelComparisonApp.calculate_result` (lines 777-859 of
the source) together with the pandas / Python primitives it relies on:
positional column access `df.columns[i]`, label-based column selection
`df[label]`, Python `set` construction and membership, boolean row masks
`df[df[col] == v]`, `.iloc[0]`, scalar `==` / `!=`, and Python `dict`
assignment.  Cell values are numbers, strings, or missing cells (pandas
`NaN`); a missing cell compares unequal to everything, itself included.

Errors a run can raise (pandas `IndexError` / `KeyError`) are modelled with
`Except`: a raised error aborts the whole call and no result is produced,
exactly as the exception propagating out of `calculate_result` does.
-/

/-- A cell value as pandas delivers it: a number, an exact string, or a
missing cell (`NaN`). -/
inductive Value where
  | num (q : ℚ)
  | str (s : String)
  | empty
deriving DecidableEq, Repr

/-- Python / pandas scalar equality (`==`): numbers compare numerically,
strings compare by exact text, a number never equals a string, and a
missing cell (`NaN`) is equal to nothing, itself included. -/
def pyEq : Value → Value → Bool
  | .num a, .num b => a == b
  | .str a, .str b => a == b
  | _, _ => false

/-- A parsed table: a header row of column labels and a body of rows.
(The ingestion adapter has already stripped the trailing non-data row and
promoted the first row to the header, lines 752-769.) -/
structure Table where
  header : List String
  rows : List (List Value)
deriving DecidableEq, Repr

/-- The configuration snapshot `calculate_result` reads: the five column
indices from the settings manager (validated non-negative integers,
lines 380-428), the custom comparison fields as `(name, index)` pairs, and
the state of the detailed-comparison ("GCK") checkbox. -/
structure Config where
  code_column_index : Nat
  name_column_index : Nat
  incoming_column_index : Nat
  outgoing_column_index : Nat
  remaining_column_index : Nat
  custom_comparisons : List (String × Nat)
  gck_check : Bool
deriving DecidableEq, Repr

/-- The exceptions a run of `calculate_result` can raise: a pandas
`IndexError` from `df.columns[i]`, a pandas `KeyError` from selecting an
absent label, and an `IndexError` from `.iloc[0]` on an empty selection. -/
inductive CompError where
  | badIndex (i : Nat)
  | missingLabel (l : String)
  | emptyFrame
deriving DecidableEq, Repr

/-- One entry of `result['differences']` (lines 853-857). -/
structure DiffEntry where
  code : Value
  description : Value
  fields : List (String × Value × Value)
deriving DecidableEq, Repr

/-- The `result` dictionary (lines 779-785): counts, the `only in file 1`
and `only in file 2` key/description pairs, and the per-key differences. -/
structure CompResult where
  row_count_1 : Nat
  row_count_2 : Nat
  missing_codes : List (Value × Value)
  extra_codes : List (Value × Value)
  differences : List DiffEntry
deriving DecidableEq, Repr

/-- `df.columns[i]`: the label at position `i`; `IndexError` out of range. -/
def colLabel (t : Table) (i : Nat) : Except CompError String :=
  match t.header[i]? with
  | some l => .ok l
  | none => .error (.badIndex i)

/-- `df[l]` column selection by label: the position of the first column
whose label is `l`; `KeyError` when no column has that label. -/
def getCol (t : Table) (l : String) : Except CompError Nat :=
  match t.header.findIdx? (· == l) with
  | some i => .ok i
  | none => .error (.missingLabel l)

/-- Reading position `i` of a row; pandas rows always have the full table
width, so a short row reads as a missing cell. -/
def getVal (r : List Value) (i : Nat) : Value :=
  r.getD i Value.empty

/-- Python set membership: some element of `l` is `==`-equal to `v`. -/
def pMem (v : Value) (l : List Value) : Bool :=
  l.any (fun w => pyEq w v)

/-- Python `set(...)` construction: one representative per `==`-equality
class (the source iterates the set in its unspecified hash order; this
embedding fixes first-occurrence order, which realises it). -/
def pyDedup (l : List Value) : List Value :=
  l.foldl (fun acc a => if pMem a acc then acc else acc ++ [a]) []

/-- `set(df[codeColumn].values)` for the key column at position `c`. -/
def tableKeys (t : Table) (c : Nat) : List Value :=
  pyDedup (t.rows.map (fun r => getVal r c))

/-- `df[df[codeCol] == code][descLabel].iloc[0]` (lines 800 and 806): keep
the rows whose key cell is `==`-equal to `code`, select the description
column by label (`KeyError` when absent), and take the first entry
(`IndexError` when the selection is empty). -/
def descLookup (t : Table) (c : Nat) (descLabel : String) (code : Value) :
    Except CompError Value := do
  let sel := t.rows.filter (fun r => pyEq (getVal r c) code)
  let d ← getCol t descLabel
  match sel with
  | [] => .error .emptyFrame
  | r :: _ => pure (getVal r d)

/-- `df[df[codeCol] == code].iloc[0]` (lines 843-844): the first row whose
key cell is `==`-equal to `code`. -/
def ilocFirst (t : Table) (c : Nat) (code : Value) :
    Except CompError (List Value) :=
  match t.rows.find? (fun r => pyEq (getVal r c) code) with
  | some r => .ok r
  | none => .error .emptyFrame

/-- The loops of lines 799-801 and 805-807: each key paired with its
description looked up in the table the keys came from. -/
def buildOnly (t : Table) (c : Nat) (descLabel : String) :
    List Value → Except CompError (List (Value × Value))
  | [] => .ok []
  | code :: rest => do
    let d ← descLookup t c descLabel code
    let tail ← buildOnly t c descLabel rest
    pure ((code, d) :: tail)

/-- Python dict assignment `d[k] = v`: overwrite in place when the key is
present (keeping its position), append otherwise. -/
def dictInsert (d : List (String × Value × Value)) (k : String)
    (v : Value × Value) : List (String × Value × Value) :=
  if d.any (fun p => p.1 == k) then
    d.map (fun p => if p.1 == k then (k, v) else p)
  else d ++ [(k, v)]

/-- `(row1[col], row2[col])` (line 849): a field's two values, the column
label resolved against each table's own header. -/
def fieldVals (df1 df2 : Table) (r1 r2 : List Value) (col : String) :
    Except CompError (Value × Value) := do
  let i1 ← getCol df1 col
  let i2 ← getCol df2 col
  pure (getVal r1 i1, getVal r2 i2)

/-- The inner field loop (lines 848-850): for each `(field_name, col)` in
turn, record the value pair in `diff_fields` when `row1[col] != row2[col]`. -/
def compareFields (df1 df2 : Table) (r1 r2 : List Value) :
    List (String × String) → List (String × Value × Value) →
    Except CompError (List (String × Value × Value))
  | [], d => .ok d
  | (name, col) :: rest, d => do
    let v ← fieldVals df1 df2 r1 r2 col
    compareFields df1 df2 r1 r2 rest
      (if pyEq v.1 v.2 then d else dictInsert d name v)

/-- The differing active fields of a matched pair of rows: each active
column whose two values resolve and disagree, with its `(value_in_a,
value_in_b)` pair, in field-list order.  (Characterises the `diff_fields`
dict a successful run of the field loop builds.) -/
def diffList (df1 df2 : Table) (r1 r2 : List Value) (cols : List (String × String)) :
    List (String × Value × Value) :=
  cols.filterMap (fun p =>
    match fieldVals df1 df2 r1 r2 p.2 with
    | .ok v => if pyEq v.1 v.2 then none else some (p.1, v)
    | .error _ => none)

/-- The `try`/`except: pass` body of lines 835-839: resolve one custom
field's index against `df1.columns`, yielding nothing when that raises. -/
def resolveCustom (df1 : Table) (comp : String × Nat) : Option (String × String) :=
  match colLabel df1 comp.2 with
  | .ok col => some (comp.1, col)
  | .error _ => none

/-- `columns_to_compare` (lines 819-839): when the detailed ("GCK") toggle
is on, the Incoming/Outgoing/Remaining labels of `df1` (a bad index here
is an uncaught `IndexError`), then every custom field whose index resolves
against `df1`'s header — `try`/`except: pass` silently skips the rest. -/
def columnsToCompare (df1 : Table) (cfg : Config) :
    Except CompError (List (String × String)) := do
  let base ← if cfg.gck_check then do
      let li ← colLabel df1 cfg.incoming_column_index
      let lo ← colLabel df1 cfg.outgoing_column_index
      let lr ← colLabel df1 cfg.remaining_column_index
      pure [("Incoming", li), ("Outgoing", lo), ("Remaining", lr)]
    else pure []
  pure (base ++ cfg.custom_comparisons.filterMap (resolveCustom df1))

/-- The loop over the common keys (lines 842-857): locate the first
matching row on each side, diff the active columns, and keep an entry only
when some field disagreed. -/
def buildDiffs (df1 df2 : Table) (c1 c2 : Nat) (descLabel : String)
    (cols : List (String × String)) : List Value → Except CompError (List DiffEntry)
  | [] => .ok []
  | code :: rest => do
    let r1 ← ilocFirst df1 c1 code
    let r2 ← ilocFirst df2 c2 code
    let d ← compareFields df1 df2 r1 r2 cols []
    if d.isEmpty then
      buildDiffs df1 df2 c1 c2 descLabel cols rest
    else do
      let di ← getCol df1 descLabel
      let tail ← buildDiffs df1 df2 c1 c2 descLabel cols rest
      pure (⟨code, getVal r1 di, d⟩ :: tail)

/-- `ExcelComparisonApp.calculate_result` (lines 777-859).  Note that both
column indices are resolved against `df1.columns` only (lines 791-792) and
every later access to `df2` goes through the resolved *labels*. -/
def calculate_result (df1 df2 : Table) (cfg : Config) :
    Except CompError CompResult := do
  let code_column ← colLabel df1 cfg.code_column_index
  let description_column ← colLabel df1 cfg.name_column_index
  let c1 ← getCol df1 code_column
  let file1_codes := tableKeys df1 c1
  let c2 ← getCol df2 code_column
  let file2_codes := tableKeys df2 c2
  let missing_codes ← buildOnly df1 c1 description_column
      (file1_codes.filter (fun k => ! pMem k file2_codes))
  let extra_codes ← buildOnly df2 c2 description_column
      (file2_codes.filter (fun k => ! pMem k file1_codes))
  if cfg.gck_check || ! cfg.custom_comparisons.isEmpty then
    let common := file1_codes.filter (fun k => pMem k file2_codes)
    let cols ← columnsToCompare df1 cfg
    let differences ← buildDiffs df1 df2 c1 c2 description_column cols common
    pure ⟨df1.rows.length, df2.rows.length, missing_codes, extra_codes, differences⟩
  else
    pure ⟨df1.rows.length, df2.rows.length, missing_codes, extra_codes, []⟩

/-- Test fixture: a one-row table with key, description and one data column. -/
def wT1 : Table := ⟨["K", "D", "X"], [[.str "1", .str "a", .num 10]]⟩

/-- Test fixture: a two-row table sharing key "1" with `wT1` (value 12 in
column X) and holding an extra key "2". -/
def wT2 : Table := ⟨["K", "D", "X"], [[.str "1", .str "a", .num 12], [.str "2", .str "b", .num 0]]⟩

/-- Test fixture: one custom comparison field "X" at index 2, GCK off. -/
def wCfgX : Config := ⟨0, 1, 0, 0, 0, [("X", 2)], false⟩

/-- Test fixture: no comparison fields at all, GCK off. -/
def wCfg0 : Config := ⟨0, 1, 0, 0, 0, [], false⟩

/-- Test fixture: a table whose "F" cell is a missing (blank) value. -/
def wT3 : Table := ⟨["K", "D", "F"], [[.str "1", .str "d", .empty]]⟩

/-- Test fixture: one custom comparison field "F" at index 2, GCK off. -/
def wCfgF : Config := ⟨0, 1, 0, 0, 0, [("F", 2)], false⟩

/-! ## Basic facts about the Python primitives -/

theorem pyEq_eq_true_iff (a b : Value) : pyEq a b = true ↔ a = b ∧ a ≠ Value.empty := by
  cases a <;> cases b <;> simp [pyEq]

theorem pyEq_empty_left (b : Value) : pyEq Value.empty b = false := by
  cases b <;> rfl

theorem pyEq_empty_right (a : Value) : pyEq a Value.empty = false := by
  cases a <;> rfl

theorem pMem_iff (v : Value) (l : List Value) :
    pMem v l = true ↔ v ∈ l ∧ v ≠ Value.empty := by
  simp only [pMem, List.any_eq_true]
  constructor
  · rintro ⟨w, hw, hEq⟩
    rw [pyEq_eq_true_iff] at hEq
    obtain ⟨rfl, hne⟩ := hEq
    exact ⟨hw, hne⟩
  · rintro ⟨hv, hne⟩
    exact ⟨v, hv, (pyEq_eq_true_iff v v).mpr ⟨rfl, hne⟩⟩

theorem mem_foldlDedup (v : Value) (l acc : List Value) :
    v ∈ List.foldl (fun acc a => if pMem a acc then acc else acc ++ [a]) acc l ↔
      v ∈ acc ∨ v ∈ l := by
  induction l generalizing acc with
  | nil => simp
  | cons a l ih =>
    simp only [List.foldl_cons]
    rw [ih]
    by_cases h : pMem a acc = true
    · have ha : a ∈ acc := ((pMem_iff a acc).mp h).1
      simp only [h, if_pos]
      constructor
      · rintro (hv | hv)
        · exact Or.inl hv
        · exact Or.inr (List.mem_cons_of_mem a hv)
      · rintro (hv | hv)
        · exact Or.inl hv
        · rcases List.mem_cons.mp hv with rfl | hv
          · exact Or.inl ha
          · exact Or.inr hv
    · simp only [h, if_neg, Bool.false_eq_true, not_false_iff, List.mem_append,
        List.mem_singleton, List.mem_cons]
      tauto

theorem mem_pyDedup (v : Value) (l : List Value) : v ∈ pyDedup l ↔ v ∈ l := by
  unfold pyDedup
  rw [mem_foldlDedup]
  simp

theorem pMem_pyDedup (v : Value) (l : List Value) :
    pMem v (pyDedup l) = pMem v l := by
  by_cases h : pMem v l = true
  · rw [h, pMem_iff]
    rw [pMem_iff] at h
    exact ⟨(mem_pyDedup v l).mpr h.1, h.2⟩
  · rw [Bool.not_eq_true] at h
    rw [h]
    rw [Bool.eq_false_iff]
    intro hc
    rw [pMem_iff, mem_pyDedup] at hc
    rw [Bool.eq_false_iff] at h
    exact h ((pMem_iff v l).mpr hc)

theorem pyDedup_append_dup {l : List Value} {x : Value} (h : pMem x l = true) :
    pyDedup (l ++ [x]) = pyDedup l := by
  unfold pyDedup
  rw [List.foldl_append]
  have hx : pMem x (List.foldl (fun acc a => if pMem a acc then acc else acc ++ [a]) [] l)
      = true := by
    rw [pMem_iff] at h ⊢
    exact ⟨(mem_foldlDedup x l []).mpr (Or.inr h.1), h.2⟩
  simp [hx]

/-! ## `Except` plumbing -/

theorem ok_bind {α β : Type} (a : α) (f : α → Except CompError β) :
    (Except.ok a : Except CompError α) >>= f = f a := rfl

theorem error_bind {α β : Type} (e : CompError) (f : α → Except CompError β) :
    (Except.error e : Except CompError α) >>= f = Except.error e := rfl

theorem exbind_ok {α β : Type} (x : Except CompError α) (f : α → Except CompError β)
    (b : β) : x >>= f = .ok b ↔ ∃ a, x = .ok a ∧ f a = .ok b := by
  cases x with
  | ok a => simp [ok_bind]
  | error e => simp [error_bind]

theorem expure_ok {α : Type} (a b : α) :
    (pure a : Except CompError α) = .ok b ↔ a = b := by
  constructor
  · intro h
    exact (Except.ok.injEq a b).mp h
  · rintro rfl
    rfl

/-! ## Decomposing a successful run of `calculate_result` -/

theorem calcResult_ok {df1 df2 : Table} {cfg : Config} {res : CompResult}
    (h : calculate_result df1 df2 cfg = .ok res) :
    ∃ codeL descL c1 c2 missing extra,
      colLabel df1 cfg.code_column_index = .ok codeL ∧
      colLabel df1 cfg.name_column_index = .ok descL ∧
      getCol df1 codeL = .ok c1 ∧
      getCol df2 codeL = .ok c2 ∧
      buildOnly df1 c1 descL ((tableKeys df1 c1).filter
        (fun k => ! pMem k (tableKeys df2 c2))) = .ok missing ∧
      buildOnly df2 c2 descL ((tableKeys df2 c2).filter
        (fun k => ! pMem k (tableKeys df1 c1))) = .ok extra ∧
      ((∃ cols diffs,
          (cfg.gck_check || ! cfg.custom_comparisons.isEmpty) = true ∧
          columnsToCompare df1 cfg = .ok cols ∧
          buildDiffs df1 df2 c1 c2 descL cols ((tableKeys df1 c1).filter
            (fun k => pMem k (tableKeys df2 c2))) = .ok diffs ∧
          res = ⟨df1.rows.length, df2.rows.length, missing, extra, diffs⟩) ∨
        ((cfg.gck_check || ! cfg.custom_comparisons.isEmpty) = false ∧
          res = ⟨df1.rows.length, df2.rows.length, missing, extra, []⟩)) := by
  by_cases hb : (cfg.gck_check || ! cfg.custom_comparisons.isEmpty) = true
  · simp only [calculate_result, hb, if_true, exbind_ok, expure_ok] at h
    obtain ⟨codeL, hcode, descL, hdesc, c1, hc1, c2, hc2, missing, hmiss,
      extra, hext, cols, hcols, diffs, hdiffs, hres⟩ := h
    exact ⟨codeL, descL, c1, c2, missing, extra, hcode, hdesc, hc1, hc2, hmiss, hext,
      Or.inl ⟨cols, diffs, hb, hcols, hdiffs, hres.symm⟩⟩
  · rw [Bool.not_eq_true] at hb
    simp only [calculate_result, hb, Bool.false_eq_true, if_false, exbind_ok, expure_ok] at h
    obtain ⟨codeL, hcode, descL, hdesc, c1, hc1, c2, hc2, missing, hmiss,
      extra, hext, hres⟩ := h
    exact ⟨codeL, descL, c1, c2, missing, extra, hcode, hdesc, hc1, hc2, hmiss, hext,
      Or.inr ⟨hb, hres.symm⟩⟩

/-! ## `buildOnly` -/

theorem buildOnly_ok_iff {t : Table} {c : Nat} {dl : String} :
    ∀ {codes : List Value} {out : List (Value × Value)},
      buildOnly t c dl codes = .ok out →
      ∀ p : Value × Value, p ∈ out ↔ p.1 ∈ codes ∧ descLookup t c dl p.1 = .ok p.2 := by
  intro codes
  induction codes with
  | nil =>
    intro out h p
    simp only [buildOnly] at h
    obtain rfl := (Except.ok.injEq _ _).mp h
    simp
  | cons code rest ih =>
    intro out h p
    simp only [buildOnly, exbind_ok, expure_ok] at h
    obtain ⟨d, hd, tail, htail, hout⟩ := h
    subst hout
    constructor
    · intro hp
      rcases List.mem_cons.mp hp with rfl | hp
      · exact ⟨List.mem_cons_self _ _, hd⟩
      · obtain ⟨h1, h2⟩ := ((ih htail) p).mp hp
        exact ⟨List.mem_cons_of_mem _ h1, h2⟩
    · rintro ⟨h1, h2⟩
      rcases List.mem_cons.mp h1 with heq | h1
      · have : p.2 = d := by
          rw [heq] at h2
          rw [h2] at hd
          exact (Except.ok.injEq _ _).mp hd
        have hp : p = (code, d) := Prod.ext heq this
        rw [hp]
        exact List.mem_cons_self _ _
      · exact List.mem_cons_of_mem _ (((ih htail) p).mpr ⟨h1, h2⟩)

theorem descLookup_ok_ne_empty {t : Table} {c : Nat} {dl : String} {code : Value}
    {d : Value} (h : descLookup t c dl code = .ok d) : code ≠ Value.empty := by
  simp only [descLookup, exbind_ok] at h
  obtain ⟨di, _, h⟩ := h
  rcases hsel : t.rows.filter (fun r => pyEq (getVal r c) code) with _ | ⟨r, rs⟩
  · rw [hsel] at h
    exact absurd h (by simp)
  · have hr : r ∈ t.rows.filter (fun r => pyEq (getVal r c) code) := by
      rw [hsel]; exact List.mem_cons_self _ _
    have := List.of_mem_filter hr
    rw [pyEq_eq_true_iff] at this
    intro hc
    rw [hc] at this
    exact this.2 this.1

/-! ## `ilocFirst` -/

theorem ilocFirst_ok {t : Table} {c : Nat} {code : Value} {r : List Value}
    (h : ilocFirst t c code = .ok r) :
    code ≠ Value.empty ∧ r ∈ t.rows ∧ getVal r c = code := by
  unfold ilocFirst at h
  rcases hf : t.rows.find? (fun r => pyEq (getVal r c) code) with _ | r'
  · rw [hf] at h
    exact absurd h (by simp)
  · rw [hf] at h
    obtain rfl : r' = r := (Except.ok.injEq _ _).mp h
    have hp := List.find?_some hf
    have hm := List.mem_of_find?_eq_some hf
    rw [pyEq_eq_true_iff] at hp
    refine ⟨?_, hm, hp.1⟩
    intro hc
    rw [hc] at hp
    exact hp.2 hp.1

theorem ilocFirst_of_mem {t : Table} {c : Nat} {k : Value}
    (hk : k ∈ t.rows.map (fun r => getVal r c)) (hne : k ≠ Value.empty) :
    ∃ r, ilocFirst t c k = .ok r := by
  obtain ⟨row, hrow, hkey⟩ := List.mem_map.mp hk
  rcases hf : t.rows.find? (fun r => pyEq (getVal r c) k) with _ | r
  · exfalso
    have := List.find?_eq_none.mp hf row hrow
    rw [hkey, pyEq_eq_true_iff] at this
    exact this ⟨rfl, hne⟩
  · exact ⟨r, by unfold ilocFirst; rw [hf]⟩

theorem ilocFirst_of_key_mem {t : Table} {c : Nat} {k : Value}
    (hk : k ∈ tableKeys t c) (hne : k ≠ Value.empty) :
    ∃ r, ilocFirst t c k = .ok r :=
  ilocFirst_of_mem ((mem_pyDedup k _).mp hk) hne

/-! ## The field loop -/

theorem dictInsert_not_mem {d : List (String × Value × Value)} {k : String}
    {v : Value × Value} (h : ∀ q ∈ d, q.1 ≠ k) :
    dictInsert d k v = d ++ [(k, v)] := by
  unfold dictInsert
  rw [if_neg]
  intro hc
  obtain ⟨q, hq, hbeq⟩ := List.any_eq_true.mp hc
  exact h q hq (by simpa using hbeq)

theorem compareFields_ok_forall {df1 df2 : Table} {r1 r2 : List Value} :
    ∀ {cols : List (String × String)} {acc d},
      compareFields df1 df2 r1 r2 cols acc = .ok d →
      ∀ p ∈ cols, ∃ v, fieldVals df1 df2 r1 r2 p.2 = .ok v := by
  intro cols
  induction cols with
  | nil => intro acc d _ p hp; exact absurd hp (List.not_mem_nil p)
  | cons q rest ih =>
    obtain ⟨name, col⟩ := q
    intro acc d h p hp
    simp only [compareFields, exbind_ok] at h
    obtain ⟨v, hv, hrest⟩ := h
    rcases List.mem_cons.mp hp with rfl | hp
    · exact ⟨v, hv⟩
    · exact ih hrest p hp

theorem compareFields_eq_append {df1 df2 : Table} {r1 r2 : List Value} :
    ∀ {cols : List (String × String)} {acc d},
      (cols.map Prod.fst).Nodup →
      (∀ q ∈ acc, q.1 ∉ cols.map Prod.fst) →
      compareFields df1 df2 r1 r2 cols acc = .ok d →
      d = acc ++ diffList df1 df2 r1 r2 cols := by
  intro cols
  induction cols with
  | nil =>
    intro acc d _ _ h
    obtain rfl := ((Except.ok.injEq _ _).mp h).symm
    simp [diffList]
  | cons q rest ih =>
    obtain ⟨name, col⟩ := q
    intro acc d hnd hdisj h
    simp only [compareFields, exbind_ok] at h
    obtain ⟨v, hv, hrest⟩ := h
    have hnd' : (rest.map Prod.fst).Nodup := (List.nodup_cons.mp (by simpa using hnd)).2
    have hname : name ∉ rest.map Prod.fst := (List.nodup_cons.mp (by simpa using hnd)).1
    rcases heq : pyEq v.1 v.2 with _ | _
    · rw [heq] at hrest
      simp only [Bool.false_eq_true, if_false] at hrest
      have hins : dictInsert acc name v = acc ++ [(name, v)] := by
        apply dictInsert_not_mem
        intro q hq
        have := hdisj q hq
        simp only [List.map_cons, List.mem_cons] at this
        tauto
      rw [hins] at hrest
      have hdisj' : ∀ q ∈ acc ++ [(name, v)], q.1 ∉ rest.map Prod.fst := by
        intro q hq
        rcases List.mem_append.mp hq with hq | hq
        · have := hdisj q hq
          simp only [List.map_cons, List.mem_cons] at this
          tauto
        · rw [List.mem_singleton.mp hq]
          exact hname
      have := ih hnd' hdisj' hrest
      rw [this, List.append_assoc]
      congr 1
      simp only [diffList, List.filterMap_cons, hv, heq, Bool.false_eq_true, if_false,
        List.singleton_append]
    · rw [heq] at hrest
      simp only [if_true] at hrest
      have hdisj' : ∀ q ∈ acc, q.1 ∉ rest.map Prod.fst := by
        intro q hq
        have := hdisj q hq
        simp only [List.map_cons, List.mem_cons] at this
        tauto
      have := ih hnd' hdisj' hrest
      rw [this]
      congr 1
      simp only [diffList, List.filterMap_cons, hv, heq, if_true]

theorem compareFields_all_eq {df1 df2 : Table} {r1 r2 : List Value} :
    ∀ {cols : List (String × String)} {acc d},
      (∀ p ∈ cols, ∀ v, fieldVals df1 df2 r1 r2 p.2 = .ok v → pyEq v.1 v.2 = true) →
      compareFields df1 df2 r1 r2 cols acc = .ok d → d = acc := by
  intro cols
  induction cols with
  | nil =>
    intro acc d _ h
    exact ((Except.ok.injEq _ _).mp h).symm
  | cons q rest ih =>
    obtain ⟨name, col⟩ := q
    intro acc d hall h
    simp only [compareFields, exbind_ok] at h
    obtain ⟨v, hv, hrest⟩ := h
    have : pyEq v.1 v.2 = true := hall (name, col) (List.mem_cons_self _ _) v hv
    rw [this] at hrest
    simp only [if_true] at hrest
    exact ih (fun p hp => hall p (List.mem_cons_of_mem _ hp)) hrest

theorem mem_diffList {df1 df2 : Table} {r1 r2 : List Value}
    {cols : List (String × String)} {name : String} {v : Value × Value} :
    (name, v) ∈ diffList df1 df2 r1 r2 cols ↔
      ∃ col, (name, col) ∈ cols ∧ fieldVals df1 df2 r1 r2 col = .ok v ∧
        pyEq v.1 v.2 = false := by
  constructor
  · intro h
    obtain ⟨p, hp, hf⟩ := List.mem_filterMap.mp h
    rcases hfv : fieldVals df1 df2 r1 r2 p.2 with _ | w
    · rw [hfv] at hf
      simp at hf
    · rw [hfv] at hf
      by_cases heq : pyEq w.1 w.2 = true
      · simp [heq] at hf
      · rw [Bool.not_eq_true] at heq
        simp only [heq, Bool.false_eq_true, if_false, Option.some.injEq] at hf
        rw [Prod.mk.injEq] at hf
        obtain ⟨h1, h2⟩ := hf
        refine ⟨p.2, ?_, ?_, ?_⟩
        · rw [← h1, Prod.mk.eta]
          exact hp
        · rw [← h2]
          exact hfv
        · rw [← h2]
          exact heq
  · rintro ⟨col, hc, hfv, heq⟩
    apply List.mem_filterMap.mpr
    exact ⟨(name, col), hc, by simp [hfv, heq]⟩

/-! ## The loop over the common keys -/

theorem isEmpty_true_iff {α : Type} (l : List α) : l.isEmpty = true ↔ l = [] := by
  cases l <;> simp

theorem buildDiffs_ok_forall {df1 df2 : Table} {c1 c2 : Nat} {descL : String}
    {cols : List (String × String)} :
    ∀ {codes : List Value} {out : List DiffEntry},
      buildDiffs df1 df2 c1 c2 descL cols codes = .ok out →
      ∀ k ∈ codes, ∃ r1 r2 d, ilocFirst df1 c1 k = .ok r1 ∧
        ilocFirst df2 c2 k = .ok r2 ∧ compareFields df1 df2 r1 r2 cols [] = .ok d := by
  intro codes
  induction codes with
  | nil => intro out _ k hk; exact absurd hk (List.not_mem_nil k)
  | cons code rest ih =>
    intro out h k hk
    simp only [buildDiffs, exbind_ok] at h
    obtain ⟨r1, hr1, r2, hr2, d, hd, hif⟩ := h
    rcases List.mem_cons.mp hk with rfl | hk
    · exact ⟨r1, r2, d, hr1, hr2, hd⟩
    · by_cases hemp : d.isEmpty = true
      · rw [if_pos hemp] at hif
        exact ih hif k hk
      · rw [if_neg hemp] at hif
        simp only [exbind_ok, expure_ok] at hif
        obtain ⟨di, hdi, tail, htail, hout⟩ := hif
        exact ih htail k hk

theorem buildDiffs_mem {df1 df2 : Table} {c1 c2 : Nat} {descL : String}
    {cols : List (String × String)} :
    ∀ {codes : List Value} {out : List DiffEntry},
      buildDiffs df1 df2 c1 c2 descL cols codes = .ok out →
      ∀ e : DiffEntry, e ∈ out ↔ (e.code ∈ codes ∧ ∃ r1 r2 d di,
        ilocFirst df1 c1 e.code = .ok r1 ∧ ilocFirst df2 c2 e.code = .ok r2 ∧
        compareFields df1 df2 r1 r2 cols [] = .ok d ∧ d ≠ [] ∧
        getCol df1 descL = .ok di ∧ e.description = getVal r1 di ∧ e.fields = d) := by
  intro codes
  induction codes with
  | nil =>
    intro out h e
    simp only [buildDiffs] at h
    obtain rfl := (Except.ok.injEq _ _).mp h
    simp
  | cons code rest ih =>
    intro out h e
    simp only [buildDiffs, exbind_ok] at h
    obtain ⟨r1, hr1, r2, hr2, d, hd, hif⟩ := h
    by_cases hemp : d.isEmpty = true
    · rw [if_pos hemp] at hif
      have hd0 : d = [] := (isEmpty_true_iff d).mp hemp
      rw [ih hif e]
      constructor
      · rintro ⟨hk, X⟩
        exact ⟨List.mem_cons_of_mem _ hk, X⟩
      · rintro ⟨hk, X⟩
        rcases List.mem_cons.mp hk with hcode | hk
        · exfalso
          obtain ⟨r1', r2', d', di', h1', h2', h3', h4', _⟩ := X
          rw [hcode] at h1' h2'
          rw [hr1] at h1'
          obtain rfl : r1 = r1' := (Except.ok.injEq _ _).mp h1'
          rw [hr2] at h2'
          obtain rfl : r2 = r2' := (Except.ok.injEq _ _).mp h2'
          rw [hd] at h3'
          obtain rfl : d = d' := (Except.ok.injEq _ _).mp h3'
          exact h4' hd0
        · exact ⟨hk, X⟩
    · rw [if_neg hemp] at hif
      simp only [exbind_ok, expure_ok] at hif
      obtain ⟨di, hdi, tail, htail, hout⟩ := hif
      subst hout
      have hd0 : d ≠ [] := by
        intro hc
        exact hemp ((isEmpty_true_iff d).mpr hc)
      constructor
      · intro he
        rcases List.mem_cons.mp he with rfl | he
        · exact ⟨List.mem_cons_self _ _, r1, r2, d, di, hr1, hr2, hd, hd0, hdi, rfl, rfl⟩
        · obtain ⟨hk, X⟩ := (ih htail e).mp he
          exact ⟨List.mem_cons_of_mem _ hk, X⟩
      · rintro ⟨hk, r1', r2', d', di', h1', h2', h3', h4', h5', h6', h7'⟩
        rcases List.mem_cons.mp hk with hcode | hk
        · rw [hcode] at h1' h2'
          rw [hr1] at h1'
          obtain rfl : r1 = r1' := (Except.ok.injEq _ _).mp h1'
          rw [hr2] at h2'
          obtain rfl : r2 = r2' := (Except.ok.injEq _ _).mp h2'
          rw [hd] at h3'
          obtain rfl : d = d' := (Except.ok.injEq _ _).mp h3'
          rw [hdi] at h5'
          obtain rfl : di = di' := (Except.ok.injEq _ _).mp h5'
          have he2 : e = ⟨e.code, e.description, e.fields⟩ := rfl
          rw [he2, hcode, h6', h7']
          exact List.mem_cons_self _ _
        · exact List.mem_cons_of_mem _
            ((ih htail e).mpr ⟨hk, r1', r2', d', di', h1', h2', h3', h4', h5', h6', h7'⟩)

/-! ## Label resolution -/

theorem expure_eq_ok {α : Type} (a : α) : (pure a : Except CompError α) = .ok a := rfl

theorem findIdx?_of_mem {l : List String} {s : String} (h : s ∈ l) :
    ∃ j, l.findIdx? (· == s) = some j := by
  induction l with
  | nil => exact absurd h (List.not_mem_nil s)
  | cons a l ih =>
    by_cases ha : (a == s) = true
    · exact ⟨0, by rw [List.findIdx?_cons, ha, if_pos rfl]⟩
    · rcases List.mem_cons.mp h with rfl | h
      · exact absurd (beq_self_eq_true _) ha
      · obtain ⟨j, hj⟩ := ih h
        refine ⟨j + 1, ?_⟩
        rw [List.findIdx?_cons]
        simp [ha, List.findIdx?_succ, hj]

theorem getCol_of_mem {t : Table} {l : String} (h : l ∈ t.header) :
    ∃ j, getCol t l = .ok j := by
  obtain ⟨j, hj⟩ := findIdx?_of_mem h
  exact ⟨j, by unfold getCol; rw [hj]⟩

theorem colLabel_ok_mem {t : Table} {i : Nat} {l : String}
    (h : colLabel t i = .ok l) : l ∈ t.header := by
  unfold colLabel at h
  rcases hg : t.header[i]? with _ | l'
  · rw [hg] at h
    exact absurd h (by simp)
  · rw [hg] at h
    obtain rfl : l' = l := (Except.ok.injEq _ _).mp h
    have hg2 := List.getElem?_eq_some.mp hg
    obtain ⟨hlt, hEq⟩ := hg2
    rw [← hEq]
    exact List.getElem_mem hlt

theorem getCol_of_colLabel {t : Table} {i : Nat} {l : String}
    (h : colLabel t i = .ok l) : ∃ j, getCol t l = .ok j :=
  getCol_of_mem (colLabel_ok_mem h)

/-! ## The differences of a common key, through a whole successful run -/

theorem columnsToCompare_off {df1 : Table} {cfg : Config}
    (hgck : cfg.gck_check = false) (hcust : cfg.custom_comparisons = []) :
    columnsToCompare df1 cfg = .ok [] := by
  simp [columnsToCompare, hgck, hcust, expure_eq_ok, ok_bind]

theorem diffEntry_spec {df1 df2 : Table} {cfg : Config} {res : CompResult}
    {codeL descL : String} {c1 c2 : Nat} {cols : List (String × String)}
    (hok : calculate_result df1 df2 cfg = .ok res)
    (h1 : colLabel df1 cfg.code_column_index = .ok codeL)
    (h2 : colLabel df1 cfg.name_column_index = .ok descL)
    (h3 : getCol df1 codeL = .ok c1)
    (h4 : getCol df2 codeL = .ok c2)
    (h5 : columnsToCompare df1 cfg = .ok cols)
    (hnd : (cols.map Prod.fst).Nodup)
    {k : Value} {r1 r2 : List Value}
    (hk1 : pMem k (tableKeys df1 c1) = true)
    (hk2 : pMem k (tableKeys df2 c2) = true)
    (hr1 : ilocFirst df1 c1 k = .ok r1)
    (hr2 : ilocFirst df2 c2 k = .ok r2) :
    ((∃ e ∈ res.differences, e.code = k) ↔ diffList df1 df2 r1 r2 cols ≠ []) ∧
    ∀ e ∈ res.differences, e.code = k →
      ∃ di, getCol df1 descL = .ok di ∧ e.description = getVal r1 di ∧
        e.fields = diffList df1 df2 r1 r2 cols := by
  obtain ⟨codeL', descL', c1', c2', missing, extra, hcode, hdesc, hc1, hc2,
    hmiss, hext, hbr⟩ := calcResult_ok hok
  rw [h1] at hcode
  obtain rfl : codeL = codeL' := (Except.ok.injEq _ _).mp hcode
  rw [h2] at hdesc
  obtain rfl : descL = descL' := (Except.ok.injEq _ _).mp hdesc
  rw [h3] at hc1
  obtain rfl : c1 = c1' := (Except.ok.injEq _ _).mp hc1
  rw [h4] at hc2
  obtain rfl : c2 = c2' := (Except.ok.injEq _ _).mp hc2
  rcases hbr with ⟨cols', diffs, hb, hcols', hdiffs, hres⟩ | ⟨hb, hres⟩
  · rw [h5] at hcols'
    obtain rfl : cols = cols' := (Except.ok.injEq _ _).mp hcols'
    have hdres : res.differences = diffs := by rw [hres]
    have hkmem : k ∈ (tableKeys df1 c1).filter (fun k => pMem k (tableKeys df2 c2)) :=
      List.mem_filter.mpr ⟨((pMem_iff k _).mp hk1).1, hk2⟩
    have extract : ∀ e ∈ res.differences, e.code = k →
        ∃ di, getCol df1 descL = .ok di ∧ e.description = getVal r1 di ∧
          e.fields = diffList df1 df2 r1 r2 cols ∧ e.fields ≠ [] := by
      intro e he hcodek
      rw [hdres] at he
      obtain ⟨_, r1', r2', d, di, h1', h2', h3', h4', h5', h6', h7'⟩ :=
        (buildDiffs_mem hdiffs e).mp he
      rw [hcodek] at h1' h2'
      rw [hr1] at h1'
      obtain rfl : r1 = r1' := (Except.ok.injEq _ _).mp h1'
      rw [hr2] at h2'
      obtain rfl : r2 = r2' := (Except.ok.injEq _ _).mp h2'
      have hdl : d = [] ++ diffList df1 df2 r1 r2 cols :=
        compareFields_eq_append hnd (by intro q hq; exact absurd hq (List.not_mem_nil q)) h3'
      rw [List.nil_append] at hdl
      exact ⟨di, h5', h6', by rw [h7']; exact hdl, by rw [h7']; exact h4'⟩
    constructor
    · constructor
      · rintro ⟨e, he, hcodek⟩
        obtain ⟨di, _, _, hfields, hne⟩ := extract e he hcodek
        rw [hfields] at hne
        exact hne
      · intro hne
        obtain ⟨r1', r2', d, h1', h2', h3'⟩ := buildDiffs_ok_forall hdiffs k hkmem
        rw [hr1] at h1'
        obtain rfl : r1 = r1' := (Except.ok.injEq _ _).mp h1'
        rw [hr2] at h2'
        obtain rfl : r2 = r2' := (Except.ok.injEq _ _).mp h2'
        have hdl : d = [] ++ diffList df1 df2 r1 r2 cols :=
          compareFields_eq_append hnd (by intro q hq; exact absurd hq (List.not_mem_nil q)) h3'
        rw [List.nil_append] at hdl
        obtain ⟨di, hdi⟩ := getCol_of_colLabel h2
        refine ⟨⟨k, getVal r1 di, d⟩, ?_, rfl⟩
        rw [hdres]
        exact (buildDiffs_mem hdiffs _).mpr
          ⟨hkmem, r1, r2, d, di, hr1, hr2, h3', by rw [hdl]; exact hne, hdi, rfl, rfl⟩
    · intro e he hcodek
      obtain ⟨di, hdi, hd2, hd3, _⟩ := extract e he hcodek
      exact ⟨di, hdi, hd2, hd3⟩
  · have hgck : cfg.gck_check = false := by
      rcases Bool.or_eq_false_iff.mp hb with ⟨hg, _⟩
      exact hg
    have hcust : cfg.custom_comparisons = [] := by
      rcases Bool.or_eq_false_iff.mp hb with ⟨_, hc⟩
      simpa using hc
    have hcols0 : cols = [] := by
      have := @columnsToCompare_off df1 cfg hgck hcust
      rw [h5] at this
      exact (Except.ok.injEq _ _).mp this
    have hdres : res.differences = [] := by rw [hres]
    constructor
    · rw [hdres, hcols0]
      simp [diffList]
    · intro e he
      rw [hdres] at he
      exact absurd he (List.not_mem_nil e)

/-! ## Facts about the three result collections -/

theorem onlyList_fact {t : Table} {c : Nat} {dl : String} {keysOther : List Value}
    {out : List (Value × Value)}
    (h : buildOnly t c dl ((tableKeys t c).filter (fun k => ! pMem k keysOther)) = .ok out) :
    ∀ p ∈ out, pMem p.1 (tableKeys t c) = true ∧ pMem p.1 keysOther = false := by
  intro p hp
  obtain ⟨hmem, hlook⟩ := (buildOnly_ok_iff h p).mp hp
  obtain ⟨hmem1, hfilt⟩ := List.mem_filter.mp hmem
  refine ⟨(pMem_iff _ _).mpr ⟨hmem1, descLookup_ok_ne_empty hlook⟩, ?_⟩
  rwa [Bool.not_eq_true'] at hfilt

theorem diffsList_fact {df1 df2 : Table} {c1 c2 : Nat} {descL : String}
    {cols : List (String × String)} {diffs : List DiffEntry}
    (h : buildDiffs df1 df2 c1 c2 descL cols ((tableKeys df1 c1).filter
      (fun k => pMem k (tableKeys df2 c2))) = .ok diffs) :
    ∀ e ∈ diffs, pMem e.code (tableKeys df1 c1) = true ∧
      pMem e.code (tableKeys df2 c2) = true := by
  intro e he
  obtain ⟨hkmem, r1, r2, d, di, h1', _⟩ := (buildDiffs_mem h e).mp he
  obtain ⟨hm1, hm2⟩ := List.mem_filter.mp hkmem
  exact ⟨(pMem_iff _ _).mpr ⟨hm1, (ilocFirst_ok h1').1⟩, hm2⟩

/-- C5: when the detailed-comparison toggle is off and no custom comparison
fields are configured, a successful comparison's `differences` collection is
empty, whatever the two tables contain. -/
theorem c5_short_circuit (df1 df2 : Table) (cfg : Config) (res : CompResult)
    (hok : calculate_result df1 df2 cfg = .ok res)
    (hgck : cfg.gck_check = false) (hcust : cfg.custom_comparisons = []) :
    res.differences = [] := by
  obtain ⟨_, _, _, _, _, _, _, _, _, _, _, _, hbr⟩ := calcResult_ok hok
  rcases hbr with ⟨cols, diffs, hb, _, _, hres⟩ | ⟨_, hres⟩
  · exfalso
    rw [hgck, hcust] at hb
    simp at hb
  · rw [hres]

/-- C5 witness: a concrete run with unequal rows but no configured fields
still reports no differences. -/
theorem c5_short_circuit_witness :
    (⟨1, 2, [], [(.str "2", .str "b")], []⟩ : CompResult).differences = [] :=
  c5_short_circuit wT1 wT2 wCfg0 ⟨1, 2, [], [(.str "2", .str "b")], []⟩ rfl rfl rfl

/-- C8: every key listed in `missing_codes` (only-in-A) is a member of A's
key set and absent from B's key set, and symmetrically for `extra_codes`
(only-in-B), where each key set is the Python set built from the resolved
key column of that table. -/
theorem c8_exclusive_membership (df1 df2 : Table) (cfg : Config) (res : CompResult)
    (codeL : String) (c1 c2 : Nat)
    (hok : calculate_result df1 df2 cfg = .ok res)
    (h1 : colLabel df1 cfg.code_column_index = .ok codeL)
    (h3 : getCol df1 codeL = .ok c1)
    (h4 : getCol df2 codeL = .ok c2) :
    (∀ p ∈ res.missing_codes,
      pMem p.1 (tableKeys df1 c1) = true ∧ pMem p.1 (tableKeys df2 c2) = false) ∧
    (∀ p ∈ res.extra_codes,
      pMem p.1 (tableKeys df2 c2) = true ∧ pMem p.1 (tableKeys df1 c1) = false) := by
  obtain ⟨codeL', descL', c1', c2', missing, extra, hcode, hdesc, hc1, hc2,
    hmiss, hext, hbr⟩ := calcResult_ok hok
  rw [h1] at hcode
  obtain rfl : codeL = codeL' := (Except.ok.injEq _ _).mp hcode
  rw [h3] at hc1
  obtain rfl : c1 = c1' := (Except.ok.injEq _ _).mp hc1
  rw [h4] at hc2
  obtain rfl : c2 = c2' := (Except.ok.injEq _ _).mp hc2
  have hresm : res.missing_codes = missing := by
    rcases hbr with ⟨_, _, _, _, _, hres⟩ | ⟨_, hres⟩ <;> rw [hres]
  have hrese : res.extra_codes = extra := by
    rcases hbr with ⟨_, _, _, _, _, hres⟩ | ⟨_, hres⟩ <;> rw [hres]
  constructor
  · intro p hp
    rw [hresm] at hp
    exact onlyList_fact hmiss p hp
  · intro p hp
    rw [hrese] at hp
    exact onlyList_fact hext p hp

/-- C8 witness: the concrete two-table run, with key "2" only in `wT2`. -/
theorem c8_exclusive_membership_witness :
    (∀ p ∈ (⟨1, 2, [], [(.str "2", .str "b")], []⟩ : CompResult).missing_codes,
      pMem p.1 (tableKeys wT1 0) = true ∧ pMem p.1 (tableKeys wT2 0) = false) ∧
    (∀ p ∈ (⟨1, 2, [], [(.str "2", .str "b")], []⟩ : CompResult).extra_codes,
      pMem p.1 (tableKeys wT2 0) = true ∧ pMem p.1 (tableKeys wT1 0) = false) :=
  c8_exclusive_membership wT1 wT2 wCfg0 ⟨1, 2, [], [(.str "2", .str "b")], []⟩
    "K" 0 0 rfl rfl rfl rfl

theorem diffList_ne_nil_iff {df1 df2 : Table} {r1 r2 : List Value}
    {cols : List (String × String)} :
    diffList df1 df2 r1 r2 cols ≠ [] ↔
      ∃ p ∈ cols, ∃ v, fieldVals df1 df2 r1 r2 p.2 = .ok v ∧ pyEq v.1 v.2 = false := by
  constructor
  · intro h
    rcases hd : diffList df1 df2 r1 r2 cols with _ | ⟨⟨name, v⟩, rest⟩
    · exact absurd hd h
    · have hm : (name, v) ∈ diffList df1 df2 r1 r2 cols := by
        rw [hd]
        exact List.mem_cons_self _ _
      obtain ⟨col, hc, hfv, heq⟩ := mem_diffList.mp hm
      exact ⟨(name, col), hc, v, hfv, heq⟩
  · rintro ⟨p, hp, v, hfv, heq⟩ hnil
    have hm : (p.1, v) ∈ diffList df1 df2 r1 r2 cols :=
      mem_diffList.mpr ⟨p.2, by rw [Prod.mk.eta]; exact hp, hfv, heq⟩
    rw [hnil] at hm
    exact absurd hm (List.not_mem_nil _)

/-- C2: in a successful run no key is reported in more than one of the
three collections `missing_codes` (only-in-A), `extra_codes` (only-in-B)
and `differences`; and a key present in both key sets whose active fields
all compare equal (in particular when no fields are active) is reported in
none of them. -/
theorem c2_partition (df1 df2 : Table) (cfg : Config) (res : CompResult)
    (codeL descL : String) (c1 c2 : Nat)
    (hok : calculate_result df1 df2 cfg = .ok res)
    (h1 : colLabel df1 cfg.code_column_index = .ok codeL)
    (h2 : colLabel df1 cfg.name_column_index = .ok descL)
    (h3 : getCol df1 codeL = .ok c1)
    (h4 : getCol df2 codeL = .ok c2)
    (k : Value) :
    ((∃ p ∈ res.missing_codes, p.1 = k) →
      (¬ ∃ p ∈ res.extra_codes, p.1 = k) ∧ (¬ ∃ e ∈ res.differences, e.code = k)) ∧
    ((∃ p ∈ res.extra_codes, p.1 = k) → (¬ ∃ e ∈ res.differences, e.code = k)) ∧
    (pMem k (tableKeys df1 c1) = true → pMem k (tableKeys df2 c2) = true →
      ∀ r1 r2, ilocFirst df1 c1 k = .ok r1 → ilocFirst df2 c2 k = .ok r2 →
        (∀ cols, columnsToCompare df1 cfg = .ok cols →
          ∀ p ∈ cols, ∀ v, fieldVals df1 df2 r1 r2 p.2 = .ok v → pyEq v.1 v.2 = true) →
        (¬ ∃ p ∈ res.missing_codes, p.1 = k) ∧ (¬ ∃ p ∈ res.extra_codes, p.1 = k) ∧
        (¬ ∃ e ∈ res.differences, e.code = k)) := by
  obtain ⟨codeL', descL', c1', c2', missing, extra, hcode, hdesc, hc1, hc2,
    hmiss, hext, hbr⟩ := calcResult_ok hok
  rw [h1] at hcode
  obtain rfl : codeL = codeL' := (Except.ok.injEq _ _).mp hcode
  rw [h2] at hdesc
  obtain rfl : descL = descL' := (Except.ok.injEq _ _).mp hdesc
  rw [h3] at hc1
  obtain rfl : c1 = c1' := (Except.ok.injEq _ _).mp hc1
  rw [h4] at hc2
  obtain rfl : c2 = c2' := (Except.ok.injEq _ _).mp hc2
  have hresm : res.missing_codes = missing := by
    rcases hbr with ⟨_, _, _, _, _, hres⟩ | ⟨_, hres⟩ <;> rw [hres]
  have hrese : res.extra_codes = extra := by
    rcases hbr with ⟨_, _, _, _, _, hres⟩ | ⟨_, hres⟩ <;> rw [hres]
  have hdiff_fact : ∀ e ∈ res.differences, pMem e.code (tableKeys df1 c1) = true ∧
      pMem e.code (tableKeys df2 c2) = true := by
    intro e he
    rcases hbr with ⟨cols', diffs, hb, hcols', hdiffs, hres⟩ | ⟨hb, hres⟩
    · have he' : e ∈ diffs := by rw [hres] at he; exact he
      exact diffsList_fact hdiffs e he'
    · have he' : e ∈ ([] : List DiffEntry) := by rw [hres] at he; exact he
      exact absurd he' (List.not_mem_nil e)
  refine ⟨?_, ?_, ?_⟩
  · rintro ⟨p, hp, hpk⟩
    rw [hresm] at hp
    obtain ⟨hA, hB⟩ := onlyList_fact hmiss p hp
    rw [hpk] at hA hB
    constructor
    · rintro ⟨q, hq, hqk⟩
      rw [hrese] at hq
      obtain ⟨hA', hB'⟩ := onlyList_fact hext q hq
      rw [hqk] at hA' hB'
      exact Bool.noConfusion (hA'.symm.trans hB)
    · rintro ⟨e, he, hek⟩
      obtain ⟨_, hd2⟩ := hdiff_fact e he
      rw [hek] at hd2
      exact Bool.noConfusion (hd2.symm.trans hB)
  · rintro ⟨q, hq, hqk⟩
    rw [hrese] at hq
    obtain ⟨hA', hB'⟩ := onlyList_fact hext q hq
    rw [hqk] at hA' hB'
    rintro ⟨e, he, hek⟩
    obtain ⟨hd1, _⟩ := hdiff_fact e he
    rw [hek] at hd1
    exact Bool.noConfusion (hd1.symm.trans hB')
  · intro hk1 hk2 r1 r2 hr1 hr2 hall
    refine ⟨?_, ?_, ?_⟩
    · rintro ⟨p, hp, hpk⟩
      rw [hresm] at hp
      obtain ⟨_, hB⟩ := onlyList_fact hmiss p hp
      rw [hpk] at hB
      exact Bool.noConfusion (hk2.symm.trans hB)
    · rintro ⟨q, hq, hqk⟩
      rw [hrese] at hq
      obtain ⟨_, hB'⟩ := onlyList_fact hext q hq
      rw [hqk] at hB'
      exact Bool.noConfusion (hk1.symm.trans hB')
    · rintro ⟨e, he, hek⟩
      rcases hbr with ⟨cols', diffs, hb, hcols', hdiffs, hres⟩ | ⟨hb, hres⟩
      · have he' : e ∈ diffs := by rw [hres] at he; exact he
        obtain ⟨hkmem, r1', r2', d, di, h1', h2', h3', h4', _, _, _⟩ :=
          (buildDiffs_mem hdiffs e).mp he'
        rw [hek] at h1' h2'
        rw [hr1] at h1'
        obtain rfl : r1 = r1' := (Except.ok.injEq _ _).mp h1'
        rw [hr2] at h2'
        obtain rfl : r2 = r2' := (Except.ok.injEq _ _).mp h2'
        exact h4' (compareFields_all_eq (hall cols' hcols') h3')
      · have he' : e ∈ ([] : List DiffEntry) := by rw [hres] at he; exact he
        exact absurd he' (List.not_mem_nil e)

/-- C2 witness: the partition properties at key "1" of the concrete run of
`wT1` against `wT2` with the custom field "X". -/
theorem c2_partition_witness :
    ((∃ p ∈ (⟨1, 2, [], [(.str "2", .str "b")],
        [⟨.str "1", .str "a", [("X", .num 10, .num 12)]⟩]⟩ : CompResult).missing_codes,
        p.1 = Value.str "1") →
      (¬ ∃ p ∈ (⟨1, 2, [], [(.str "2", .str "b")],
        [⟨.str "1", .str "a", [("X", .num 10, .num 12)]⟩]⟩ : CompResult).extra_codes,
        p.1 = Value.str "1") ∧
      (¬ ∃ e ∈ (⟨1, 2, [], [(.str "2", .str "b")],
        [⟨.str "1", .str "a", [("X", .num 10, .num 12)]⟩]⟩ : CompResult).differences,
        e.code = Value.str "1")) ∧
    ((∃ p ∈ (⟨1, 2, [], [(.str "2", .str "b")],
        [⟨.str "1", .str "a", [("X", .num 10, .num 12)]⟩]⟩ : CompResult).extra_codes,
        p.1 = Value.str "1") →
      (¬ ∃ e ∈ (⟨1, 2, [], [(.str "2", .str "b")],
        [⟨.str "1", .str "a", [("X", .num 10, .num 12)]⟩]⟩ : CompResult).differences,
        e.code = Value.str "1")) ∧
    (pMem (Value.str "1") (tableKeys wT1 0) = true →
      pMem (Value.str "1") (tableKeys wT2 0) = true →
      ∀ r1 r2, ilocFirst wT1 0 (Value.str "1") = .ok r1 →
        ilocFirst wT2 0 (Value.str "1") = .ok r2 →
        (∀ cols, columnsToCompare wT1 wCfgX = .ok cols →
          ∀ p ∈ cols, ∀ v, fieldVals wT1 wT2 r1 r2 p.2 = .ok v → pyEq v.1 v.2 = true) →
        (¬ ∃ p ∈ (⟨1, 2, [], [(.str "2", .str "b")],
          [⟨.str "1", .str "a", [("X", .num 10, .num 12)]⟩]⟩ : CompResult).missing_codes,
          p.1 = Value.str "1") ∧
        (¬ ∃ p ∈ (⟨1, 2, [], [(.str "2", .str "b")],
          [⟨.str "1", .str "a", [("X", .num 10, .num 12)]⟩]⟩ : CompResult).extra_codes,
          p.1 = Value.str "1") ∧
        (¬ ∃ e ∈ (⟨1, 2, [], [(.str "2", .str "b")],
          [⟨.str "1", .str "a", [("X", .num 10, .num 12)]⟩]⟩ : CompResult).differences,
          e.code = Value.str "1")) :=
  c2_partition wT1 wT2 wCfgX
    ⟨1, 2, [], [(.str "2", .str "b")], [⟨.str "1", .str "a", [("X", .num 10, .num 12)]⟩]⟩
    "K" "D" 0 0 rfl rfl rfl rfl rfl (Value.str "1")

/-- C4: for a key present in both key sets (with active field names
pairwise distinct, as the `diff_fields` dict keys them by name), a
`differences` entry for that key exists iff some active field's two values
disagree, and any such entry carries the description read from A's matched
row and exactly the list of disagreeing active fields, each with its
`(value_in_a, value_in_b)` pair. -/
theorem c4_diff_entries (df1 df2 : Table) (cfg : Config) (res : CompResult)
    (codeL descL : String) (c1 c2 : Nat) (cols : List (String × String))
    (hok : calculate_result df1 df2 cfg = .ok res)
    (h1 : colLabel df1 cfg.code_column_index = .ok codeL)
    (h2 : colLabel df1 cfg.name_column_index = .ok descL)
    (h3 : getCol df1 codeL = .ok c1)
    (h4 : getCol df2 codeL = .ok c2)
    (h5 : columnsToCompare df1 cfg = .ok cols)
    (hnd : (cols.map Prod.fst).Nodup)
    (k : Value) (r1 r2 : List Value)
    (hk1 : pMem k (tableKeys df1 c1) = true)
    (hk2 : pMem k (tableKeys df2 c2) = true)
    (hr1 : ilocFirst df1 c1 k = .ok r1)
    (hr2 : ilocFirst df2 c2 k = .ok r2) :
    ((∃ e ∈ res.differences, e.code = k) ↔
      ∃ p ∈ cols, ∃ v, fieldVals df1 df2 r1 r2 p.2 = .ok v ∧ pyEq v.1 v.2 = false) ∧
    ∀ e ∈ res.differences, e.code = k →
      ∃ di, getCol df1 descL = .ok di ∧ e.description = getVal r1 di ∧
        e.fields = diffList df1 df2 r1 r2 cols := by
  obtain ⟨hiff, hcontent⟩ :=
    diffEntry_spec hok h1 h2 h3 h4 h5 hnd hk1 hk2 hr1 hr2
  exact ⟨hiff.trans diffList_ne_nil_iff, hcontent⟩

/-- C4 witness: the concrete run of `wT1` against `wT2`, where the custom
field "X" disagrees (10 against 12) at the common key "1". -/
theorem c4_diff_entries_witness :
    ((∃ e ∈ (⟨1, 2, [], [(.str "2", .str "b")],
        [⟨.str "1", .str "a", [("X", .num 10, .num 12)]⟩]⟩ : CompResult).differences,
        e.code = Value.str "1") ↔
      ∃ p ∈ [("X", "X")], ∃ v,
        fieldVals wT1 wT2 [.str "1", .str "a", .num 10] [.str "1", .str "a", .num 12] p.2 =
          .ok v ∧ pyEq v.1 v.2 = false) ∧
    ∀ e ∈ (⟨1, 2, [], [(.str "2", .str "b")],
        [⟨.str "1", .str "a", [("X", .num 10, .num 12)]⟩]⟩ : CompResult).differences,
      e.code = Value.str "1" →
      ∃ di, getCol wT1 "D" = .ok di ∧
        e.description = getVal [.str "1", .str "a", .num 10] di ∧
        e.fields = diffList wT1 wT2 [.str "1", .str "a", .num 10]
          [.str "1", .str "a", .num 12] [("X", "X")] :=
  c4_diff_entries wT1 wT2 wCfgX
    ⟨1, 2, [], [(.str "2", .str "b")], [⟨.str "1", .str "a", [("X", .num 10, .num 12)]⟩]⟩
    "K" "D" 0 0 [("X", "X")] rfl rfl rfl rfl rfl rfl (by decide)
    (Value.str "1") [.str "1", .str "a", .num 10] [.str "1", .str "a", .num 12]
    rfl rfl rfl rfl

/-- C10: a missing cell is `==`-equal to nothing, itself included; so for a
key present in both tables, an active field whose two matched values are
both missing is recorded as a difference, and a differences entry for the
key is produced carrying that field. -/
theorem c10_blank_vs_blank (df1 df2 : Table) (cfg : Config) (res : CompResult)
    (codeL descL : String) (c1 c2 : Nat) (cols : List (String × String))
    (hok : calculate_result df1 df2 cfg = .ok res)
    (h1 : colLabel df1 cfg.code_column_index = .ok codeL)
    (h2 : colLabel df1 cfg.name_column_index = .ok descL)
    (h3 : getCol df1 codeL = .ok c1)
    (h4 : getCol df2 codeL = .ok c2)
    (h5 : columnsToCompare df1 cfg = .ok cols)
    (hnd : (cols.map Prod.fst).Nodup)
    (k : Value) (r1 r2 : List Value)
    (hk1 : pMem k (tableKeys df1 c1) = true)
    (hk2 : pMem k (tableKeys df2 c2) = true)
    (hr1 : ilocFirst df1 c1 k = .ok r1)
    (hr2 : ilocFirst df2 c2 k = .ok r2)
    (name col : String) (hp : (name, col) ∈ cols)
    (hv : fieldVals df1 df2 r1 r2 col = .ok (Value.empty, Value.empty)) :
    pyEq Value.empty Value.empty = false ∧
    ∃ e ∈ res.differences, e.code = k ∧
      (name, (Value.empty, Value.empty)) ∈ e.fields := by
  obtain ⟨hiff, hcontent⟩ :=
    diffEntry_spec hok h1 h2 h3 h4 h5 hnd hk1 hk2 hr1 hr2
  have hmem : (name, (Value.empty, Value.empty)) ∈ diffList df1 df2 r1 r2 cols :=
    mem_diffList.mpr ⟨col, hp, hv, rfl⟩
  have hne : diffList df1 df2 r1 r2 cols ≠ [] := by
    intro hnil
    rw [hnil] at hmem
    exact absurd hmem (List.not_mem_nil _)
  obtain ⟨e, he, hek⟩ := hiff.mpr hne
  obtain ⟨di, _, _, hfields⟩ := hcontent e he hek
  refine ⟨rfl, e, he, hek, ?_⟩
  rw [hfields]
  exact hmem

/-- C10 witness: comparing `wT3` against itself on field "F" (both cells
blank) still produces a differences entry recording `("F", NaN, NaN)`. -/
theorem c10_blank_vs_blank_witness :
    pyEq Value.empty Value.empty = false ∧
    ∃ e ∈ (⟨1, 1, [], [],
        [⟨.str "1", .str "d", [("F", .empty, .empty)]⟩]⟩ : CompResult).differences,
      e.code = Value.str "1" ∧
      ("F", (Value.empty, Value.empty)) ∈ e.fields :=
  c10_blank_vs_blank wT3 wT3 wCfgF
    ⟨1, 1, [], [], [⟨.str "1", .str "d", [("F", .empty, .empty)]⟩]⟩
    "K" "D" 0 0 [("F", "F")] rfl rfl rfl rfl rfl rfl (by decide)
    (Value.str "1") [.str "1", .str "d", .empty] [.str "1", .str "d", .empty]
    rfl rfl rfl rfl "F" "F" (by decide) rfl

/-- C6: field values are compared with type-aware Python equality —
numbers compare numerically, strings compare by exact text (no case
folding, no trimming), and a number never equals a string; concretely, the
engine records numeric 5 against text "5" as a difference. -/
theorem c6_type_aware_equality :
    (∀ a b : ℚ, pyEq (.num a) (.num b) = true ↔ a = b) ∧
    (∀ s t : String, pyEq (.str s) (.str t) = true ↔ s = t) ∧
    (∀ a : ℚ, ∀ s : String, pyEq (.num a) (.str s) = false ∧
      pyEq (.str s) (.num a) = false) ∧
    pyEq (.str "abc") (.str "ABC") = false ∧
    pyEq (.str "a") (.str " a") = false ∧
    pyEq (.num 5) (.num 5) = true ∧
    calculate_result ⟨["K", "F"], [[.str "1", .num 5]]⟩ ⟨["K", "F"], [[.str "1", .str "5"]]⟩
      ⟨0, 0, 0, 0, 0, [("F", 1)], false⟩ =
      .ok ⟨1, 1, [], [], [⟨.str "1", .str "1", [("F", .num 5, .str "5")]⟩]⟩ :=
  ⟨fun a b => by simp [pyEq],
   fun s t => by simp [pyEq],
   fun a s => ⟨rfl, rfl⟩,
   by decide, by decide, by decide, rfl⟩

/-- C1 counterexample: `name_column_index = 1` is not a valid column
position for table B (its header has a single column), yet the comparison
succeeds and returns a full result — no configuration error is raised for
an index that is invalid only for table B, because both indices are
resolved against table A's columns alone. -/
theorem c1_b_side_index_not_checked :
    (⟨["K"], [[.str "1"]]⟩ : Table).header.length ≤ 1 ∧
    calculate_result ⟨["K", "D"], [[.str "1", .str "a"]]⟩ ⟨["K"], [[.str "1"]]⟩
      ⟨0, 1, 0, 0, 0, [], false⟩ = .ok ⟨1, 1, [], [], []⟩ :=
  ⟨by decide, rfl⟩

/-- C1 (amended): if `code_column_index` or `name_column_index` is not a
valid column position for table A, the comparison aborts with an index
error naming the invalid index, and no result is produced.  (Validity for
table B is not checked at this point: table B is only reached through the
labels resolved from table A's header.) -/
theorem c1_bad_index_fails (df1 df2 : Table) (cfg : Config)
    (h : df1.header.length ≤ cfg.code_column_index ∨
         df1.header.length ≤ cfg.name_column_index) :
    ∃ i, (i = cfg.code_column_index ∨ i = cfg.name_column_index) ∧
      df1.header.length ≤ i ∧
      calculate_result df1 df2 cfg = .error (.badIndex i) := by
  by_cases hc : df1.header.length ≤ cfg.code_column_index
  · refine ⟨cfg.code_column_index, Or.inl rfl, hc, ?_⟩
    have hcl : colLabel df1 cfg.code_column_index = .error (.badIndex cfg.code_column_index) := by
      unfold colLabel
      rw [List.getElem?_eq_none hc]
    simp [calculate_result, hcl, error_bind]
  · have hn : df1.header.length ≤ cfg.name_column_index := h.resolve_left hc
    refine ⟨cfg.name_column_index, Or.inr rfl, hn, ?_⟩
    rw [Nat.not_le] at hc
    obtain ⟨l, hl⟩ : ∃ l, colLabel df1 cfg.code_column_index = .ok l := by
      unfold colLabel
      rcases hg : df1.header[cfg.code_column_index]? with _ | l
      · rw [List.getElem?_eq_none_iff] at hg
        exact absurd hg (Nat.not_le.mpr hc)
      · exact ⟨l, rfl⟩
    have hname : colLabel df1 cfg.name_column_index = .error (.badIndex cfg.name_column_index) := by
      unfold colLabel
      rw [List.getElem?_eq_none hn]
    simp [calculate_result, hl, ok_bind, hname, error_bind]

/-- C1 witness: index 5 on a one-column table A aborts with the index
error. -/
theorem c1_bad_index_fails_witness :
    (⟨["K"], []⟩ : Table).header.length ≤ 5 ∧
    ∃ i, (i = (5 : Nat) ∨ i = (0 : Nat)) ∧
      (⟨["K"], []⟩ : Table).header.length ≤ i ∧
      calculate_result ⟨["K"], []⟩ ⟨["K"], []⟩ ⟨5, 0, 0, 0, 0, [], false⟩ =
        .error (.badIndex i) :=
  ⟨by decide, c1_bad_index_fails ⟨["K"], []⟩ ⟨["K"], []⟩ ⟨5, 0, 0, 0, 0, [], false⟩
    (Or.inl (by decide))⟩

/-! ## C3: behaviour of custom fields with invalid indices -/

theorem buildDiffs_nil_cols_aux {df1 df2 : Table} {c1 c2 : Nat} {descL : String} :
    ∀ codes : List Value,
      (∀ k ∈ codes, k ∈ tableKeys df1 c1 ∧ pMem k (tableKeys df2 c2) = true) →
      buildDiffs df1 df2 c1 c2 descL [] codes = .ok [] := by
  intro codes
  induction codes with
  | nil => intro _; rfl
  | cons code rest ih =>
    intro hall
    obtain ⟨hmem1, hpm2⟩ := hall code (List.mem_cons_self _ _)
    have hne : code ≠ Value.empty := ((pMem_iff _ _).mp hpm2).2
    obtain ⟨r1, hr1⟩ := ilocFirst_of_key_mem hmem1 hne
    obtain ⟨r2, hr2⟩ := ilocFirst_of_key_mem ((pMem_iff _ _).mp hpm2).1 hne
    simp only [buildDiffs, hr1, hr2, ok_bind, compareFields, List.isEmpty_nil, if_true]
    exact ih (fun k hk => hall k (List.mem_cons_of_mem _ hk))

theorem buildDiffs_nil_cols (df1 df2 : Table) (c1 c2 : Nat) (descL : String) :
    buildDiffs df1 df2 c1 c2 descL []
      ((tableKeys df1 c1).filter (fun k => pMem k (tableKeys df2 c2))) = .ok [] :=
  buildDiffs_nil_cols_aux _
    (fun _ hk => ⟨(List.mem_filter.mp hk).1, (List.mem_filter.mp hk).2⟩)

theorem calculate_result_congr_cfg (df1 df2 : Table) (cfg cfg' : Config)
    (hci : cfg'.code_column_index = cfg.code_column_index)
    (hni : cfg'.name_column_index = cfg.name_column_index)
    (hcond : (cfg'.gck_check || ! cfg'.custom_comparisons.isEmpty) =
             (cfg.gck_check || ! cfg.custom_comparisons.isEmpty))
    (hctc : columnsToCompare df1 cfg' = columnsToCompare df1 cfg) :
    calculate_result df1 df2 cfg' = calculate_result df1 df2 cfg := by
  unfold calculate_result
  simp only [hci, hni, hcond, hctc]

theorem calc_branch_irrelevant (df1 df2 : Table) (cfg cfg' : Config)
    (hci : cfg'.code_column_index = cfg.code_column_index)
    (hni : cfg'.name_column_index = cfg.name_column_index)
    (hcond' : (cfg'.gck_check || ! cfg'.custom_comparisons.isEmpty) = true)
    (hcond : (cfg.gck_check || ! cfg.custom_comparisons.isEmpty) = false)
    (hctc : columnsToCompare df1 cfg' = .ok []) :
    calculate_result df1 df2 cfg' = calculate_result df1 df2 cfg := by
  unfold calculate_result
  simp only [hci, hni, hcond, hcond', eq_self_iff_true, if_true, Bool.false_eq_true,
    if_false, hctc, ok_bind, buildDiffs_nil_cols]

/-- C3 counterexample: the custom field ("F", 2) has an index that is valid
for table A but out of range for table B (two columns).  It is not skipped:
A's label at position 2 is "X", table B has no column "X", and the
comparison aborts with a KeyError instead of excluding the field. -/
theorem c3_bad_b_index_not_skipped :
    (⟨["K", "D"], [[.str "1", .str "b"]]⟩ : Table).header.length ≤ 2 ∧
    calculate_result ⟨["K", "D", "X"], [[.str "1", .str "a", .str "x"]]⟩
      ⟨["K", "D"], [[.str "1", .str "b"]]⟩ ⟨0, 1, 0, 0, 0, [("F", 2)], false⟩ =
      .error (.missingLabel "X") :=
  ⟨by decide, rfl⟩

/-- C3 (amended): a custom comparison field whose index is not a valid
column position for *table A* is skipped without any error and without any
effect on the rest of the result: appending such a field to the
configuration leaves `calculate_result` unchanged.  (Validity for table B
is never checked when the field list is built; as the counterexample
shows, a field invalid only for B can abort the whole comparison.) -/
theorem c3_skip_bad_a_index (df1 df2 : Table) (cfg : Config) (name : String) (idx : Nat)
    (h : df1.header.length ≤ idx) :
    calculate_result df1 df2
      { cfg with custom_comparisons := cfg.custom_comparisons ++ [(name, idx)] } =
    calculate_result df1 df2 cfg := by
  have hcl : colLabel df1 idx = .error (.badIndex idx) := by
    unfold colLabel
    rw [List.getElem?_eq_none h]
  have hres : resolveCustom df1 (name, idx) = none := by
    unfold resolveCustom
    rw [hcl]
  have hctc : columnsToCompare df1
      { cfg with custom_comparisons := cfg.custom_comparisons ++ [(name, idx)] } =
      columnsToCompare df1 cfg := by
    unfold columnsToCompare
    simp only [List.filterMap_append, List.filterMap_cons, List.filterMap_nil, hres,
      List.append_nil]
  have hemp' : (cfg.custom_comparisons ++ [(name, idx)]).isEmpty = false := by
    cases cfg.custom_comparisons <;> rfl
  by_cases hb : (cfg.gck_check || ! cfg.custom_comparisons.isEmpty) = true
  · apply calculate_result_congr_cfg
    · rfl
    · rfl
    · rw [hb]
      simp [hemp']
    · exact hctc
  · rw [Bool.not_eq_true] at hb
    obtain ⟨hgck, hemp⟩ := Bool.or_eq_false_iff.mp hb
    have hcust : cfg.custom_comparisons = [] := by
      simpa using hemp
    apply calc_branch_irrelevant
    · rfl
    · rfl
    · simp [hemp']
    · exact hb
    · rw [hctc]
      exact columnsToCompare_off hgck hcust

/-- C3 witness: appending the out-of-range custom field ("Region", 9) to
the three-column `wT1` run leaves the whole result unchanged. -/
theorem c3_skip_bad_a_index_witness :
    wT1.header.length ≤ 9 ∧
    calculate_result wT1 wT2
      { wCfgX with custom_comparisons := wCfgX.custom_comparisons ++ [("Region", 9)] } =
    calculate_result wT1 wT2 wCfgX :=
  ⟨by decide, c3_skip_bad_a_index wT1 wT2 wCfgX "Region" 9 (by decide)⟩

/-! ## C7: appending a row with a duplicate key -/

theorem find?_append_some {α : Type} {p : α → Bool} {l1 : List α} {x : α}
    (h : l1.find? p = some x) (l2 : List α) : (l1 ++ l2).find? p = some x := by
  induction l1 with
  | nil => simp [List.find?] at h
  | cons a l ih =>
    by_cases hpa : p a = true
    · rw [List.find?_cons_of_pos _ hpa] at h
      rw [List.cons_append, List.find?_cons_of_pos _ hpa]
      exact h
    · rw [List.find?_cons_of_neg _ hpa] at h
      rw [List.cons_append, List.find?_cons_of_neg _ hpa]
      exact ih h

theorem find?_append_none {α : Type} {p : α → Bool} {l1 : List α}
    (h : l1.find? p = none) (l2 : List α) : (l1 ++ l2).find? p = l2.find? p := by
  induction l1 with
  | nil => rfl
  | cons a l ih =>
    by_cases hpa : p a = true
    · rw [List.find?_cons_of_pos _ hpa] at h
      exact absurd h (by simp)
    · rw [List.find?_cons_of_neg _ hpa] at h
      rw [List.cons_append, List.find?_cons_of_neg _ hpa]
      exact ih h

theorem tableKeys_append_dup {df1 : Table} {c1 : Nat} {r : List Value}
    (hdup : pMem (getVal r c1) (df1.rows.map (fun row => getVal row c1)) = true) :
    tableKeys ⟨df1.header, df1.rows ++ [r]⟩ c1 = tableKeys df1 c1 := by
  unfold tableKeys
  simp only [List.map_append, List.map_cons, List.map_nil]
  exact pyDedup_append_dup hdup

theorem ilocFirst_append_dup {df1 : Table} {c1 : Nat} {r : List Value}
    (hdup : pMem (getVal r c1) (df1.rows.map (fun row => getVal row c1)) = true) :
    ∀ k : Value, ilocFirst ⟨df1.header, df1.rows ++ [r]⟩ c1 k = ilocFirst df1 c1 k := by
  intro k
  rcases hf : df1.rows.find? (fun row => pyEq (getVal row c1) k) with _ | x
  · by_cases hpr : pyEq (getVal r c1) k = true
    · exfalso
      obtain ⟨hkey, hne⟩ := (pyEq_eq_true_iff _ _).mp hpr
      obtain ⟨w, hw, hwe⟩ := List.any_eq_true.mp hdup
      obtain ⟨row, hrow, hrowk⟩ := List.mem_map.mp hw
      obtain ⟨hweq, -⟩ := (pyEq_eq_true_iff _ _).mp hwe
      apply List.find?_eq_none.mp hf row hrow
      rw [hrowk, hweq, hkey]
      exact (pyEq_eq_true_iff _ _).mpr ⟨rfl, hkey ▸ hne⟩
    · rw [Bool.not_eq_true] at hpr
      have h2 : (df1.rows ++ [r]).find? (fun row => pyEq (getVal row c1) k) = none := by
        rw [find?_append_none hf]
        simp [List.find?_cons, hpr]
      simp only [ilocFirst, h2, hf]
  · have h2 : (df1.rows ++ [r]).find? (fun row => pyEq (getVal row c1) k) = some x :=
      find?_append_some hf [r]
    simp only [ilocFirst, h2, hf]

theorem descLookup_append_dup {df1 : Table} {c1 : Nat} {r : List Value}
    (hdup : pMem (getVal r c1) (df1.rows.map (fun row => getVal row c1)) = true) :
    ∀ (dl : String) (k : Value),
      descLookup ⟨df1.header, df1.rows ++ [r]⟩ c1 dl k = descLookup df1 c1 dl k := by
  intro dl k
  by_cases hpr : pyEq (getVal r c1) k = true
  · obtain ⟨hkey, hne⟩ := (pyEq_eq_true_iff _ _).mp hpr
    obtain ⟨w, hw, hwe⟩ := List.any_eq_true.mp hdup
    obtain ⟨row, hrow, hrowk⟩ := List.mem_map.mp hw
    obtain ⟨hweq, -⟩ := (pyEq_eq_true_iff _ _).mp hwe
    have hrowmem : row ∈ df1.rows.filter (fun row => pyEq (getVal row c1) k) := by
      apply List.mem_filter.mpr
      refine ⟨hrow, ?_⟩
      rw [hrowk, hweq, hkey]
      exact (pyEq_eq_true_iff _ _).mpr ⟨rfl, hkey ▸ hne⟩
    rcases hsel : df1.rows.filter (fun row => pyEq (getVal row c1) k) with _ | ⟨s, tail⟩
    · rw [hsel] at hrowmem
      exact absurd hrowmem (List.not_mem_nil row)
    · simp only [descLookup, List.filter_append, hsel, List.cons_append]
      rfl
  · rw [Bool.not_eq_true] at hpr
    have hfr : List.filter (fun row => pyEq (getVal row c1) k) [r] = [] := by
      simp [List.filter_cons, hpr]
    simp only [descLookup, List.filter_append, hfr, List.append_nil]
    rfl

theorem buildOnly_congr {t t' : Table} {c : Nat} {dl : String}
    (hdl : ∀ k, descLookup t' c dl k = descLookup t c dl k) :
    ∀ codes, buildOnly t' c dl codes = buildOnly t c dl codes := by
  intro codes
  induction codes with
  | nil => rfl
  | cons code rest ih => simp only [buildOnly, hdl, ih]

theorem compareFields_congr_df1 {df1 df1' df2 : Table}
    (hgc : ∀ l, getCol df1' l = getCol df1 l) (r1 r2 : List Value) :
    ∀ (cols : List (String × String)) (acc : List (String × Value × Value)),
      compareFields df1' df2 r1 r2 cols acc = compareFields df1 df2 r1 r2 cols acc := by
  intro cols
  induction cols with
  | nil => intro acc; rfl
  | cons q rest ih =>
    obtain ⟨name, col⟩ := q
    intro acc
    have hfv : fieldVals df1' df2 r1 r2 col = fieldVals df1 df2 r1 r2 col := by
      unfold fieldVals
      rw [hgc]
    simp only [compareFields, hfv, ih]

theorem buildDiffs_congr_df1 {df1 df1' df2 : Table} {c1 c2 : Nat} {descL : String}
    {cols : List (String × String)}
    (hih : ∀ k, ilocFirst df1' c1 k = ilocFirst df1 c1 k)
    (hcf : ∀ r1 r2 acc, compareFields df1' df2 r1 r2 cols acc =
      compareFields df1 df2 r1 r2 cols acc)
    (hgc : ∀ l, getCol df1' l = getCol df1 l) :
    ∀ codes, buildDiffs df1' df2 c1 c2 descL cols codes =
      buildDiffs df1 df2 c1 c2 descL cols codes := by
  intro codes
  induction codes with
  | nil => rfl
  | cons code rest ih => simp only [buildDiffs, hih, hcf, hgc, ih]

/-- A-side helper for C7: appending to table A an extra row whose key
already occurs in A's key column changes nothing but `row_count_1`. -/
theorem calc_append_dup_a (df1 df2 : Table) (cfg : Config) (res : CompResult)
    (codeL : String) (c1 : Nat) (r : List Value)
    (hok : calculate_result df1 df2 cfg = .ok res)
    (h1 : colLabel df1 cfg.code_column_index = .ok codeL)
    (h3 : getCol df1 codeL = .ok c1)
    (hdup : pMem (getVal r c1) (df1.rows.map (fun row => getVal row c1)) = true) :
    calculate_result ⟨df1.header, df1.rows ++ [r]⟩ df2 cfg =
      .ok ⟨res.row_count_1 + 1, res.row_count_2, res.missing_codes,
           res.extra_codes, res.differences⟩ := by
  obtain ⟨codeL', descL', c1', c2', missing, extra, hcode, hdesc0, hc1, hc2,
    hmiss, hext, hbr⟩ := calcResult_ok hok
  rw [h1] at hcode
  obtain rfl : codeL = codeL' := (Except.ok.injEq _ _).mp hcode
  rw [h3] at hc1
  obtain rfl : c1 = c1' := (Except.ok.injEq _ _).mp hc1
  have hgc : ∀ l, getCol (⟨df1.header, df1.rows ++ [r]⟩ : Table) l = getCol df1 l :=
    fun _ => rfl
  have hcl2 : ∀ i, colLabel (⟨df1.header, df1.rows ++ [r]⟩ : Table) i = colLabel df1 i :=
    fun _ => rfl
  have hctc : columnsToCompare (⟨df1.header, df1.rows ++ [r]⟩ : Table) cfg =
      columnsToCompare df1 cfg := rfl
  have hkeys := tableKeys_append_dup hdup
  have hiloc := ilocFirst_append_dup hdup
  have hdesc := descLookup_append_dup hdup
  have hbo : ∀ dl codes, buildOnly (⟨df1.header, df1.rows ++ [r]⟩ : Table) c1 dl codes =
      buildOnly df1 c1 dl codes := fun dl => buildOnly_congr (hdesc dl)
  have hcf := @compareFields_congr_df1 df1 ⟨df1.header, df1.rows ++ [r]⟩ df2 hgc
  rcases hbr with ⟨cols, diffs, hb, hcols, hdiffs, hres⟩ | ⟨hb, hres⟩
  · subst hres
    have hbd := @buildDiffs_congr_df1 df1 ⟨df1.header, df1.rows ++ [r]⟩ df2 c1 c2' descL'
      cols hiloc (fun r1 r2 acc => hcf r1 r2 cols acc) hgc
    simp [calculate_result, hcl2, h1, hdesc0, ok_bind, hgc, h3, hkeys, hc2,
      hbo, hmiss, hext, hb, hctc, hcols, hbd, hdiffs, expure_eq_ok, List.length_append]
  · subst hres
    simp [calculate_result, hcl2, h1, hdesc0, ok_bind, hgc, h3, hkeys, hc2,
      hbo, hmiss, hext, hb, hctc, expure_eq_ok, List.length_append]

theorem compareFields_congr_df2 {df1 df2 df2' : Table}
    (hgc : ∀ l, getCol df2' l = getCol df2 l) (r1 r2 : List Value) :
    ∀ (cols : List (String × String)) (acc : List (String × Value × Value)),
      compareFields df1 df2' r1 r2 cols acc = compareFields df1 df2 r1 r2 cols acc := by
  intro cols
  induction cols with
  | nil => intro acc; rfl
  | cons q rest ih =>
    obtain ⟨name, col⟩ := q
    intro acc
    have hfv : fieldVals df1 df2' r1 r2 col = fieldVals df1 df2 r1 r2 col := by
      unfold fieldVals
      simp only [hgc]
    simp only [compareFields, hfv, ih]

theorem buildDiffs_congr_df2 {df1 df2 df2' : Table} {c1 c2 : Nat} {descL : String}
    {cols : List (String × String)}
    (hih : ∀ k, ilocFirst df2' c2 k = ilocFirst df2 c2 k)
    (hcf : ∀ r1 r2 acc, compareFields df1 df2' r1 r2 cols acc =
      compareFields df1 df2 r1 r2 cols acc) :
    ∀ codes, buildDiffs df1 df2' c1 c2 descL cols codes =
      buildDiffs df1 df2 c1 c2 descL cols codes := by
  intro codes
  induction codes with
  | nil => rfl
  | cons code rest ih => simp only [buildDiffs, hih, hcf, ih]

/-- B-side helper for C7: appending to table B an extra row whose key
already occurs in B's key column changes nothing but `row_count_2`. -/
theorem calc_append_dup_b (df1 df2 : Table) (cfg : Config) (res : CompResult)
    (codeL : String) (c2 : Nat) (r : List Value)
    (hok : calculate_result df1 df2 cfg = .ok res)
    (h1 : colLabel df1 cfg.code_column_index = .ok codeL)
    (h4 : getCol df2 codeL = .ok c2)
    (hdup : pMem (getVal r c2) (df2.rows.map (fun row => getVal row c2)) = true) :
    calculate_result df1 ⟨df2.header, df2.rows ++ [r]⟩ cfg =
      .ok ⟨res.row_count_1, res.row_count_2 + 1, res.missing_codes,
           res.extra_codes, res.differences⟩ := by
  obtain ⟨codeL', descL', c1', c2', missing, extra, hcode, hdesc0, hc1, hc2,
    hmiss, hext, hbr⟩ := calcResult_ok hok
  rw [h1] at hcode
  obtain rfl : codeL = codeL' := (Except.ok.injEq _ _).mp hcode
  rw [h4] at hc2
  obtain rfl : c2 = c2' := (Except.ok.injEq _ _).mp hc2
  have hgc : ∀ l, getCol (⟨df2.header, df2.rows ++ [r]⟩ : Table) l = getCol df2 l :=
    fun _ => rfl
  have hkeys := tableKeys_append_dup hdup
  have hiloc := ilocFirst_append_dup hdup
  have hdesc := descLookup_append_dup hdup
  have hbo : ∀ dl codes, buildOnly (⟨df2.header, df2.rows ++ [r]⟩ : Table) c2 dl codes =
      buildOnly df2 c2 dl codes := fun dl => buildOnly_congr (hdesc dl)
  have hcf := @compareFields_congr_df2 df1 df2 ⟨df2.header, df2.rows ++ [r]⟩ hgc
  rcases hbr with ⟨cols, diffs, hb, hcols, hdiffs, hres⟩ | ⟨hb, hres⟩
  · subst hres
    have hbd := @buildDiffs_congr_df2 df1 df2 ⟨df2.header, df2.rows ++ [r]⟩ c1' c2 descL'
      cols hiloc (fun r1 r2 acc => hcf r1 r2 cols acc)
    simp [calculate_result, h1, hdesc0, ok_bind, hc1, hgc, h4, hkeys, hbo,
      hmiss, hext, hb, hcols, hbd, hdiffs, expure_eq_ok, List.length_append]
  · subst hres
    simp [calculate_result, h1, hdesc0, ok_bind, hc1, hgc, h4, hkeys, hbo,
      hmiss, hext, hb, expure_eq_ok, List.length_append]

/-- C7: first-match-wins on duplicate keys, on either table — appending to
table A (respectively table B) an extra row whose key already occurs in
that table's key column changes nothing but that table's row count: every
description lookup (for `missing_codes` from A, for `extra_codes` from B)
and both matched records of every common key are still taken from the
first row carrying the key in its own table, no error arises, and
`missing_codes`, `extra_codes` and `differences` are identical. -/
theorem c7_first_match_wins (df1 df2 : Table) (cfg : Config) (res : CompResult)
    (codeL : String) (c1 c2 : Nat) (rA rB : List Value)
    (hok : calculate_result df1 df2 cfg = .ok res)
    (h1 : colLabel df1 cfg.code_column_index = .ok codeL)
    (h3 : getCol df1 codeL = .ok c1)
    (h4 : getCol df2 codeL = .ok c2)
    (hdupA : pMem (getVal rA c1) (df1.rows.map (fun row => getVal row c1)) = true)
    (hdupB : pMem (getVal rB c2) (df2.rows.map (fun row => getVal row c2)) = true) :
    calculate_result ⟨df1.header, df1.rows ++ [rA]⟩ df2 cfg =
      .ok ⟨res.row_count_1 + 1, res.row_count_2, res.missing_codes,
           res.extra_codes, res.differences⟩ ∧
    calculate_result df1 ⟨df2.header, df2.rows ++ [rB]⟩ cfg =
      .ok ⟨res.row_count_1, res.row_count_2 + 1, res.missing_codes,
           res.extra_codes, res.differences⟩ :=
  ⟨calc_append_dup_a df1 df2 cfg res codeL c1 rA hok h1 h3 hdupA,
   calc_append_dup_b df1 df2 cfg res codeL c2 rB hok h1 h4 hdupB⟩

/-- C7 witness: appending a duplicate-keyed row to `wT1` (key "1") or to
`wT2` (key "2") only increments the corresponding row count; every
description and matched record still comes from the first row with that
key in its own table. -/
theorem c7_first_match_wins_witness :
    calculate_result ⟨wT1.header, wT1.rows ++ [[.str "1", .str "zzz", .num 99]]⟩ wT2 wCfgX =
      .ok ⟨2, 2, [], [(.str "2", .str "b")],
        [⟨.str "1", .str "a", [("X", .num 10, .num 12)]⟩]⟩ ∧
    calculate_result wT1 ⟨wT2.header, wT2.rows ++ [[.str "2", .str "yyy", .num 7]]⟩ wCfgX =
      .ok ⟨1, 3, [], [(.str "2", .str "b")],
        [⟨.str "1", .str "a", [("X", .num 10, .num 12)]⟩]⟩ :=
  c7_first_match_wins wT1 wT2 wCfgX
    ⟨1, 2, [], [(.str "2", .str "b")], [⟨.str "1", .str "a", [("X", .num 10, .num 12)]⟩]⟩
    "K" 0 0 [.str "1", .str "zzz", .num 99] [.str "2", .str "yyy", .num 7]
    rfl rfl rfl rfl rfl rfl
